import Mathlib

/-!
Verification development for the onwardseo pinger tool.

The core under study is the ping fan-out engine of the repository:
  * `netlify/functions/lib/xmlrpc.ts` — the XML-RPC codec
    (`buildXmlRpcRequest`, `parseXmlRpcResponse`) and the retrying
    delivery unit `sendXmlRpcPing`;
  * the WebSub codec (`notifyHubAttempt`, `notifyHub`);
  * `netlify/functions/ping.mts` — request validation
    (`validateRequest`) and the per-service aggregation loop of the
    handler.

The TypeScript is embedded shallowly: strings are `List Char`
underneath, the regular expressions used by the parser are embedded as
explicit scanning functions with the exact backtracking semantics of
the JavaScript engine on these patterns, `fetch` and wall-clock
measurements are abstracted as oracles (an attempt-indexed function
giving each attempt's outcome), and the retry loops become structurally
terminating recursions mirroring the source control flow.
-/

namespace Pinger

abbrev Chars := List Char

/-- The whitespace class of JavaScript `\s` restricted to ASCII (the
only characters our concrete inputs and the source's literals use). -/
def jsSpace (c : Char) : Bool :=
  c = ' ' || c = '\t' || c = '\n' || c = '\r' || c = '\x0b' || c = '\x0c'

/-- ASCII lower-casing, the case folding relevant to the `/i` regex
flag on the parser's ASCII-only literals. -/
def lowerC (c : Char) : Char :=
  if 'A' ≤ c ∧ c ≤ 'Z' then Char.ofNat (c.toNat + 32) else c

/-- Test `leadsWith pat s`: it holds when `pat` occurs at the very start of `s`. -/
def leadsWith : Chars → Chars → Bool
  | [], _ => true
  | _ :: _, [] => false
  | p :: ps, c :: cs => p == c && leadsWith ps cs

/-- Test `listContains s pat`: `pat` occurs somewhere inside `s`
(JavaScript `String.prototype.includes`). -/
def listContains : Chars → Chars → Bool
  | [], pat => pat.isEmpty
  | s@(_ :: rest), pat => leadsWith pat s || listContains rest pat

/-- Model of JavaScript `includes` on strings, the model of JavaScript `includes`. -/
def includesS (s pat : String) : Bool := listContains s.data pat.data

theorem leadsWith_append {pat s : Chars} (t : Chars)
    (h : leadsWith pat s = true) : leadsWith pat (s ++ t) = true := by
  induction pat generalizing s with
  | nil => simp [leadsWith]
  | cons p ps ih =>
    cases s with
    | nil => simp [leadsWith] at h
    | cons c cs =>
      simp only [leadsWith, Bool.and_eq_true, beq_iff_eq] at h
      simp only [List.cons_append, leadsWith, Bool.and_eq_true, beq_iff_eq]
      exact ⟨h.1, ih h.2⟩

theorem listContains_of_leadsWith {pat s : Chars}
    (h : leadsWith pat s = true) : listContains s pat = true := by
  cases s with
  | nil =>
    cases pat with
    | nil => simp [listContains, List.isEmpty]
    | cons p ps => simp [leadsWith] at h
  | cons c cs => simp [listContains, h]

theorem listContains_append_left {pat s : Chars} (t : Chars)
    (h : listContains s pat = true) : listContains (s ++ t) pat = true := by
  induction s with
  | nil =>
    cases pat with
    | nil => exact listContains_of_leadsWith (by simp [leadsWith])
    | cons p ps => simp [listContains, List.isEmpty] at h
  | cons c cs ih =>
    simp only [listContains, Bool.or_eq_true] at h
    rcases h with h | h
    · exact listContains_of_leadsWith (leadsWith_append t h)
    · simp only [List.cons_append, listContains, Bool.or_eq_true]
      exact Or.inr (ih h)

/-- If `pat` occurs at the start of `X ++ Q`, then it occurs at the
start of `X`, or some character of `pat` lies in `Q`. -/
theorem leadsWith_append_cases {pat X Q : Chars}
    (h : leadsWith pat (X ++ Q) = true) :
    leadsWith pat X = true ∨ ∃ p ∈ pat, p ∈ Q := by
  induction pat generalizing X with
  | nil => exact Or.inl rfl
  | cons p ps ih =>
    cases X with
    | nil =>
      cases Q with
      | nil => simp [leadsWith] at h
      | cons q qs =>
        simp only [List.nil_append, leadsWith, Bool.and_eq_true, beq_iff_eq] at h
        exact Or.inr ⟨p, List.mem_cons_self .., h.1 ▸ List.mem_cons_self ..⟩
    | cons x xs =>
      simp only [List.cons_append, leadsWith, Bool.and_eq_true, beq_iff_eq] at h
      rcases ih h.2 with h' | ⟨q, hq, hqQ⟩
      · exact Or.inl (by simp [leadsWith, h.1, h'])
      · exact Or.inr ⟨q, List.mem_cons_of_mem _ hq, hqQ⟩

/-- A pattern none of whose characters occur in `Q` does not occur
inside `Q` (the pattern being nonempty). -/
theorem listContains_eq_false_of_disjoint {pat Q : Chars}
    (hne : pat ≠ [])
    (hQ : ∀ c ∈ Q, ∀ p ∈ pat, c ≠ p) :
    listContains Q pat = false := by
  induction Q with
  | nil => cases pat with
    | nil => exact absurd rfl hne
    | cons p ps => simp [listContains, List.isEmpty]
  | cons q qs ih =>
    simp only [listContains, Bool.or_eq_false_iff]
    constructor
    · cases pat with
      | nil => exact absurd rfl hne
      | cons p ps =>
        simp only [leadsWith, Bool.and_eq_false_iff]
        left
        simp only [beq_eq_false_iff_ne, ne_eq]
        intro hpq
        exact hQ q (List.mem_cons_self ..) p (List.mem_cons_self ..) hpq.symm
    · exact ih (fun c hc p hp => hQ c (List.mem_cons_of_mem _ hc) p hp)

/-- Occurrence analysis for a string of the form `P ++ Q`: if the
(nonempty) pattern does not occur inside `P` and no character of `Q`
belongs to the pattern, the pattern does not occur in `P ++ Q`. -/
theorem listContains_append_eq_false {pat P Q : Chars}
    (hne : pat ≠ [])
    (hP : listContains P pat = false)
    (hQ : ∀ c ∈ Q, ∀ p ∈ pat, c ≠ p) :
    listContains (P ++ Q) pat = false := by
  induction P with
  | nil => exact listContains_eq_false_of_disjoint hne hQ
  | cons a P' ih =>
    simp only [listContains, Bool.or_eq_false_iff] at hP
    simp only [List.cons_append, listContains, Bool.or_eq_false_iff]
    refine ⟨?_, ih hP.2⟩
    by_contra hlw
    rw [Bool.not_eq_false] at hlw
    rcases leadsWith_append_cases (X := a :: P') hlw with h | ⟨p, hp, hpQ⟩
    · rw [hP.1] at h; exact Bool.false_ne_true h
    · exact hQ p hpQ p hp rfl

/-! ### Decimal rendering of numbers

JavaScript template literals render a non-negative integer as its
decimal digit string; `natDigits`/`natStr` model that rendering. -/

def digitChar (n : Nat) : Char := Char.ofNat (48 + n)

/-- Fuel-indexed digit rendering (structural, so the kernel can
evaluate it); `fuel` only needs to exceed the digit count. -/
def natDigitsAux : Nat → Nat → Chars
  | 0, _ => []
  | fuel + 1, n =>
    if n < 10 then [digitChar n]
    else natDigitsAux fuel (n / 10) ++ [digitChar (n % 10)]

def natDigits (n : Nat) : Chars := natDigitsAux (n + 1) n

def natStr (n : Nat) : String := ⟨natDigits n⟩

theorem natDigitsAux_eq_natDigits {n fuel : Nat} (h : n < fuel) :
    natDigitsAux fuel n = natDigits n := by
  induction n using Nat.strong_induction_on generalizing fuel with
  | _ n ih =>
    match fuel, h with
    | fuel' + 1, h =>
      by_cases h10 : n < 10
      · simp [natDigitsAux, natDigits, h10]
      · have hdiv : n / 10 < n := Nat.div_lt_self (by omega) (by norm_num)
        simp only [natDigitsAux, natDigits, h10, if_false]
        rw [ih (n / 10) hdiv (by omega), ih (n / 10) hdiv (by omega)]

/-- The defining recurrence of `natDigits`. -/
theorem natDigits_eq (n : Nat) :
    natDigits n = if n < 10 then [digitChar n]
      else natDigits (n / 10) ++ [digitChar (n % 10)] := by
  by_cases h10 : n < 10
  · simp [natDigits, natDigitsAux, h10]
  · conv_lhs => rw [natDigits]
    simp only [natDigitsAux, h10, if_false]
    rw [natDigitsAux_eq_natDigits (by omega)]

theorem digitChar_isDigit {n : Nat} (h : n < 10) : (digitChar n).isDigit = true := by
  interval_cases n <;> decide

theorem natDigits_all_digit (n : Nat) : ∀ c ∈ natDigits n, c.isDigit = true := by
  induction n using Nat.strong_induction_on with
  | _ n ih =>
    intro c hc
    rw [natDigits_eq] at hc
    by_cases h : n < 10
    · simp only [h, if_true, List.mem_singleton] at hc
      exact hc ▸ digitChar_isDigit h
    · simp only [h, if_false, List.mem_append, List.mem_singleton] at hc
      rcases hc with hc | hc
      · exact ih (n / 10) (Nat.div_lt_self (by omega) (by norm_num)) c hc
      · exact hc ▸ digitChar_isDigit (Nat.mod_lt _ (by norm_num))

theorem natDigits_ne_nil (n : Nat) : natDigits n ≠ [] := by
  rw [natDigits_eq]
  by_cases h : n < 10 <;> simp [h]

theorem natDigits_head_of_ge10 {n : Nat} (h : ¬ n < 10) :
    (natDigits n).head? = (natDigits (n / 10)).head? := by
  obtain ⟨c, cs, hcc⟩ := List.exists_cons_of_ne_nil (natDigits_ne_nil (n / 10))
  rw [natDigits_eq n, if_neg h, hcc]
  rfl

/-- A status in the 5xx range renders with first digit `'5'`. -/
theorem natDigits_head_5xx {n : Nat} (h1 : 500 ≤ n) (h2 : n < 600) :
    (natDigits n).head? = some '5' := by
  have hn : ¬ n < 10 := by omega
  have hn10 : ¬ n / 10 < 10 := by omega
  have h100 : n / 10 / 10 = 5 := by omega
  rw [natDigits_head_of_ge10 hn, natDigits_head_of_ge10 hn10, h100]
  decide

/-! ### Regex-pattern scanners

Each regular expression used by the source is embedded as a scanning
function over `Chars` with the JavaScript engine's leftmost-match and
lazy/greedy backtracking behaviour on that particular pattern. -/

/-- Consume the literal `lit` case-insensitively from the front of `s`
(the `/i` flag of the source's regexes); return the rest. -/
def litCI : Chars → Chars → Option Chars
  | [], s => some s
  | _ :: _, [] => none
  | l :: ls, c :: cs => if lowerC l == lowerC c then litCI ls cs else none

/-- Consume the literal `lit` case-sensitively (for the `CDATA`
pattern, which carries no `/i` flag). -/
def litCS : Chars → Chars → Option Chars
  | [], s => some s
  | _ :: _, [] => none
  | l :: ls, c :: cs => if l == c then litCS ls cs else none

/-- Greedy `\s*`. -/
def skipWs (s : Chars) : Chars := s.dropWhile jsSpace

/-- Greedy `(\d+)`: the maximal leading digit run, required nonempty. -/
def digits1 (s : Chars) : Option (Chars × Chars) :=
  match s.takeWhile Char.isDigit with
  | [] => none
  | d => some (d, s.dropWhile Char.isDigit)

/-- Lazy `([\s\S]*?)` followed by `suffix`: the shortest capture whose
remainder is accepted by `suffix`. -/
def lazyCap (suffix : Chars → Option Chars) : Chars → Option (Chars × Chars)
  | [] =>
    match suffix [] with
    | some rest => some ([], rest)
    | none => none
  | s@(c :: cs) =>
    match suffix s with
    | some rest => some ([], rest)
    | none =>
      match lazyCap suffix cs with
      | some (cap, rest) => some (c :: cap, rest)
      | none => none

/-- Leftmost match: try the pattern at every start position. -/
def scanFor (pat : Chars → Option α) : Chars → Option α
  | [] => pat []
  | s@(_ :: rest) =>
    match pat s with
    | some a => some a
    | none => scanFor pat rest

def str2c (s : String) : Chars := s.data

/-! ### String utilities of the codec (`xmlrpc.ts`)

`jsTrim` models `String.prototype.trim`, `replaceAll` a global literal
regex replace, `normChars` the whitespace-collapsing replace
`xml.replace(/>\s+</g, '><')`, `stripTags` the replace
`/<[^>]+>/g → ''`, and the `decode*` functions `decodeXmlEntities`.
The recursions are fuel-indexed with fuel `s.length`; every step
consumes at least one character, so the fuel never runs out on the
wrapper's call. -/

def jsTrim (s : Chars) : Chars :=
  ((s.dropWhile jsSpace).reverse.dropWhile jsSpace).reverse

def jsTrimS (s : String) : String := ⟨jsTrim s.data⟩

def replaceAllAux (pat rep : Chars) : Nat → Chars → Chars
  | 0, s => s
  | _ + 1, [] => []
  | fuel + 1, s@(c :: cs) =>
    if leadsWith pat s && !pat.isEmpty then
      rep ++ replaceAllAux pat rep fuel (s.drop pat.length)
    else c :: replaceAllAux pat rep fuel cs

/-- Global replacement of the literal `pat` by `rep` (scanning resumes
after the replaced occurrence, as JavaScript `replace(/lit/g, rep)`). -/
def replaceAll (s pat rep : Chars) : Chars := replaceAllAux pat rep s.length s

def normAux : Nat → Chars → Chars
  | 0, s => s
  | _ + 1, [] => []
  | fuel + 1, c :: rest =>
    if c = '>' then
      match rest.dropWhile jsSpace with
      | '<' :: rest2 =>
        if rest.takeWhile jsSpace = [] then '>' :: normAux fuel rest
        else '>' :: '<' :: normAux fuel rest2
      | _ => '>' :: normAux fuel rest
    else c :: normAux fuel rest

/-- Model of `xml.replace(/>\s+</g, '><')`. -/
def normChars (s : Chars) : Chars := normAux s.length s

def normalizeS (s : String) : String := ⟨normChars s.data⟩

def stripTagsAux : Nat → Chars → Chars
  | 0, s => s
  | _ + 1, [] => []
  | fuel + 1, c :: rest =>
    if c = '<' then
      match rest.dropWhile (fun x => x ≠ '>') with
      | '>' :: rest2 =>
        if rest.takeWhile (fun x => x ≠ '>') = [] then '<' :: stripTagsAux fuel rest
        else stripTagsAux fuel rest2
      | _ => '<' :: stripTagsAux fuel rest
    else c :: stripTagsAux fuel rest

/-- Model of `.replace(/<[^>]+>/g, '')`. -/
def stripTags (s : Chars) : Chars := stripTagsAux s.length s

def digitsToNat (d : Chars) : Nat :=
  d.foldl (fun a c => a * 10 + (c.toNat - 48)) 0

def isHexDigitC (c : Char) : Bool :=
  c.isDigit || ('a' ≤ c && c ≤ 'f') || ('A' ≤ c && c ≤ 'F')

def hexVal (c : Char) : Nat :=
  if c.isDigit then c.toNat - 48
  else if 'a' ≤ c && c ≤ 'f' then c.toNat - 87
  else c.toNat - 55

def hexToNat (d : Chars) : Nat := d.foldl (fun a c => a * 16 + hexVal c) 0

/-- Model of `String.fromCharCode`: it truncates its argument to a 16-bit code unit. -/
def jsFromCharCode (n : Nat) : Char := Char.ofNat (n % 65536)

def decodeDecAux : Nat → Chars → Chars
  | 0, s => s
  | _ + 1, [] => []
  | fuel + 1, c :: rest =>
    if c = '&' then
      match rest with
      | '#' :: rest2 =>
        match rest2.dropWhile Char.isDigit with
        | ';' :: rest3 =>
          if rest2.takeWhile Char.isDigit = [] then '&' :: decodeDecAux fuel rest
          else jsFromCharCode (digitsToNat (rest2.takeWhile Char.isDigit)) :: decodeDecAux fuel rest3
        | _ => '&' :: decodeDecAux fuel rest
      | _ => '&' :: decodeDecAux fuel rest
    else c :: decodeDecAux fuel rest

/-- Model of `.replace(/&#(\d+);/g, fromCharCode ∘ parseInt)`. -/
def decodeDec (s : Chars) : Chars := decodeDecAux s.length s

def decodeHexAux : Nat → Chars → Chars
  | 0, s => s
  | _ + 1, [] => []
  | fuel + 1, c :: rest =>
    if c = '&' then
      match rest with
      | '#' :: 'x' :: rest2 =>
        match rest2.dropWhile isHexDigitC with
        | ';' :: rest3 =>
          if rest2.takeWhile isHexDigitC = [] then '&' :: decodeHexAux fuel rest
          else jsFromCharCode (hexToNat (rest2.takeWhile isHexDigitC)) :: decodeHexAux fuel rest3
        | _ => '&' :: decodeHexAux fuel rest
      | _ => '&' :: decodeHexAux fuel rest
    else c :: decodeHexAux fuel rest

/-- Model of `.replace(/&#x([0-9a-fA-F]+);/g, fromCharCode ∘ parseInt16)`. -/
def decodeHex (s : Chars) : Chars := decodeHexAux s.length s

/-- Model of `decodeXmlEntities` of `xmlrpc.ts`: the five literal entity
replacements applied in the source's order, then the decimal and
hexadecimal character-reference replacements. -/
def decodeXmlEntities (s : String) : String :=
  ⟨decodeHex (decodeDec
    (replaceAll
      (replaceAll
        (replaceAll
          (replaceAll
            (replaceAll s.data (str2c "&amp;") (str2c "&"))
            (str2c "&lt;") (str2c "<"))
          (str2c "&gt;") (str2c ">"))
        (str2c "&quot;") (str2c "\""))
      (str2c "&apos;") (str2c "'")))⟩

/-! ### The parser's regular expressions (`parseXmlRpcResponse`) -/

/-- Regex `/<name>flerror<\/name><value><boolean>(\d+)<\/boolean><\/value>/i`
at one position. -/
def flerrorStrictAt (s : Chars) : Option Chars := do
  let s ← litCI (str2c "<name>flerror</name><value><boolean>") s
  let (d, s) ← digits1 s
  let _ ← litCI (str2c "</boolean></value>") s
  pure d

def flerrorStrict (s : Chars) : Option Chars := scanFor flerrorStrictAt s

/-- Regex `/<name>\s*flerror\s*<\/name>\s*<value>\s*<boolean>\s*(\d+)\s*<\/boolean>\s*<\/value>/i`
at one position. -/
def flerrorWsAt (s : Chars) : Option Chars := do
  let s ← litCI (str2c "<name>") s
  let s ← litCI (str2c "flerror") (skipWs s)
  let s ← litCI (str2c "</name>") (skipWs s)
  let s ← litCI (str2c "<value>") (skipWs s)
  let s ← litCI (str2c "<boolean>") (skipWs s)
  let (d, s) ← digits1 (skipWs s)
  let s ← litCI (str2c "</boolean>") (skipWs s)
  let _ ← litCI (str2c "</value>") (skipWs s)
  pure d

def flerrorWs (s : Chars) : Option Chars := scanFor flerrorWsAt s

/-- Regex `/<member><name>message<\/name><value>([\s\S]*?)<\/value><\/member>/i`
at one position. -/
def messageMemberStrictAt (s : Chars) : Option Chars := do
  let s ← litCI (str2c "<member><name>message</name><value>") s
  let (cap, _) ← lazyCap (litCI (str2c "</value></member>")) s
  pure cap

def messageMemberStrict (s : Chars) : Option Chars := scanFor messageMemberStrictAt s

/-- Regex `/<member>\s*<name>\s*message\s*<\/name>\s*<value>([\s\S]*?)<\/value>\s*<\/member>/i`
at one position. -/
def messageMemberWsAt (s : Chars) : Option Chars := do
  let s ← litCI (str2c "<member>") s
  let s ← litCI (str2c "<name>") (skipWs s)
  let s ← litCI (str2c "message") (skipWs s)
  let s ← litCI (str2c "</name>") (skipWs s)
  let s ← litCI (str2c "<value>") (skipWs s)
  let (cap, _) ← lazyCap
    (fun t => do
      let t ← litCI (str2c "</value>") t
      litCI (str2c "</member>") (skipWs t)) s
  pure cap

def messageMemberWs (s : Chars) : Option Chars := scanFor messageMemberWsAt s

/-- Greedy `([^<]+)`: maximal nonempty run of characters other than `<`. -/
def nonLt1 (s : Chars) : Option Chars :=
  match s.takeWhile (fun c => c ≠ '<') with
  | [] => none
  | cap => some cap

/-- Regex `/<name>\s*message\s*<\/name>\s*<value>(?:\s*<string>)?([^<]+)/i` at
one position; the optional group is tried first and dropped on failure
(regex backtracking). -/
def legacyMessageAt (s : Chars) : Option Chars := do
  let s ← litCI (str2c "<name>") s
  let s ← litCI (str2c "message") (skipWs s)
  let s ← litCI (str2c "</name>") (skipWs s)
  let s ← litCI (str2c "<value>") (skipWs s)
  match (do
      let t ← litCI (str2c "<string>") (skipWs s)
      nonLt1 t) with
  | some cap => some cap
  | none => nonLt1 s

def legacyMessage (s : Chars) : Option Chars := scanFor legacyMessageAt s

/-- Regex `/<name>faultString<\/name><value>([\s\S]*?)<\/value>/i` at one
position. -/
def faultStrictAt (s : Chars) : Option Chars := do
  let s ← litCI (str2c "<name>faultString</name><value>") s
  let (cap, _) ← lazyCap (litCI (str2c "</value>")) s
  pure cap

def faultStrict (s : Chars) : Option Chars := scanFor faultStrictAt s

/-- Regex `/<name>\s*faultString\s*<\/name>\s*<value>([\s\S]*?)<\/value>/i` at
one position. -/
def faultWsAt (s : Chars) : Option Chars := do
  let s ← litCI (str2c "<name>") s
  let s ← litCI (str2c "faultString") (skipWs s)
  let s ← litCI (str2c "</name>") (skipWs s)
  let s ← litCI (str2c "<value>") (skipWs s)
  let (cap, _) ← lazyCap (litCI (str2c "</value>")) s
  pure cap

def faultWs (s : Chars) : Option Chars := scanFor faultWsAt s

/-- Regex `/<!\[CDATA\[([\s\S]*?)\]\]>/` (case-sensitive) at one position. -/
def cdataAt (s : Chars) : Option Chars := do
  let s ← litCS (str2c "<![CDATA[") s
  let (cap, _) ← lazyCap (litCS (str2c "]]>")) s
  pure cap

/-- Regex `/<string>([\s\S]*?)<\/string>/i` at one position. -/
def stringTagAt (s : Chars) : Option Chars := do
  let s ← litCI (str2c "<string>") s
  let (cap, _) ← lazyCap (litCI (str2c "</string>")) s
  pure cap

/-- Regex `/<value>\s*([\s\S]*?)\s*<\/value>/i` at one position (the trailing
`\s*` strips the whitespace immediately before the closing tag from
the lazy capture). -/
def bareValueAt (s : Chars) : Option Chars := do
  let s ← litCI (str2c "<value>") s
  let (cap, _) ← lazyCap (fun t => litCI (str2c "</value>") (skipWs t)) (skipWs s)
  pure cap

/-- Model of `extractValueContent` of `xmlrpc.ts`: CDATA first, then a
`<string>` wrapper, then the bare value with nested tags stripped. -/
def extractValueContent (valueBlock : String) : String :=
  match scanFor cdataAt valueBlock.data with
  | some cap => ⟨cap⟩
  | none =>
    match scanFor stringTagAt valueBlock.data with
    | some cap => decodeXmlEntities ⟨cap⟩
    | none =>
      match scanFor bareValueAt valueBlock.data with
      | some cap => decodeXmlEntities ⟨jsTrim (stripTags cap)⟩
      | none => ""

structure ParsedResponse where
  flerror : Bool
  message : String
deriving DecidableEq, Repr

/-- The `flerror` extraction of `parseXmlRpcResponse`: the strict
pattern on the normalized text, falling back to the
whitespace-tolerant pattern on the raw text; the captured digit string
is compared with the string `'0'`. -/
def flerrorRaw (xml : String) : Bool :=
  match flerrorStrict (normalizeS xml).data with
  | some d => d ≠ str2c "0"
  | none =>
    match flerrorWs xml.data with
    | some d => d ≠ str2c "0"
    | none => false

/-- The `message` extraction of `parseXmlRpcResponse`: the member
pattern (strict on normalized, else whitespace-tolerant on raw), whose
capture goes through `extractValueContent`; else the legacy pattern;
else the default `'Response received'`. -/
def messageRaw (xml : String) : String :=
  match
    match messageMemberStrict (normalizeS xml).data with
    | some vc => some vc
    | none => messageMemberWs xml.data
  with
  | some vc =>
    let ex := extractValueContent ("<value>" ++ (⟨vc⟩ : String) ++ "</value>")
    if ex ≠ "" then jsTrimS ex else "Response received"
  | none =>
    match legacyMessage xml.data with
    | some m => decodeXmlEntities (jsTrimS ⟨m⟩)
    | none => "Response received"

/-- The fault test of `parseXmlRpcResponse`:
`normalized.includes('<fault>') || xml.includes('<fault>')`. -/
def hasFault (xml : String) : Bool :=
  includesS (normalizeS xml) "<fault>" || includesS xml "<fault>"

/-- The `faultString` extraction, used only when `hasFault`; when it
produces nothing the previously extracted message stands. -/
def faultMessage (xml : String) (fallback : String) : String :=
  match
    match faultStrict (normalizeS xml).data with
    | some fc => some fc
    | none => faultWs xml.data
  with
  | some fc =>
    let f := extractValueContent ("<value>" ++ (⟨fc⟩ : String) ++ "</value>")
    if f ≠ "" then jsTrimS f else fallback
  | none => fallback

/-- Model of `parseXmlRpcResponse` of `netlify/functions/lib/xmlrpc.ts`
(lines 137–211): extract `flerror` and `message`, then override both
when a `<fault>` block is present. The `try/catch` of the source is
dead for the pure string operations involved, so the embedding is
total. -/
def parseXmlRpcResponse (xml : String) : ParsedResponse :=
  if hasFault xml then ⟨true, faultMessage xml (messageRaw xml)⟩
  else ⟨flerrorRaw xml, messageRaw xml⟩

/-! ### Data model (`lib/types.ts`) -/

structure XmlRpcPingResult where
  success : Bool
  flerror : Bool
  message : String
  endpoint : String
  responseTime : Nat
deriving DecidableEq, Repr

structure WebSubResult where
  success : Bool
  statusCode : Nat
  message : String
  hubUrl : String
  responseTime : Nat
  retryAfter : Option Nat := none
deriving DecidableEq, Repr

structure PingResult where
  service : String
  success : Bool
  message : String
  method : String
  responseTime : Nat
  error : Option String := none
deriving DecidableEq, Repr

def DEFAULT_RETRY_COUNT : Nat := 1
def RETRY_DELAY_MS : Nat := 500
def MAX_FUNCTION_EXECUTION_MS : Nat := 25000
def MAX_URLS : Nat := 5
def BATCH_SIZE : Nat := 2

/-! ### Transport abstraction

`fetch` and the wall clock are effects; one delivery attempt's
interaction with them is abstracted as a `FetchEvent` (what the
`try`/`catch` of the attempt function observes) plus the measured
elapsed time `rt` of that attempt. -/

structure HttpResponse where
  status : Nat
  statusText : String
  retryAfterHeader : Option String
  bodyText : String
deriving DecidableEq, Repr

inductive FetchEvent where
  | response (resp : HttpResponse)
  | abortError
  | otherError (msg : String)
  | thrownNonError
deriving DecidableEq, Repr

/-! ### XML-RPC delivery unit (`xmlrpc.ts`) -/

/-- Model of `isRetryableError` of `xmlrpc.ts` (lines 21–26). -/
def isRetryableErrorX (result : XmlRpcPingResult) : Bool :=
  includesS result.message "timed out" ||
  includesS result.message "temporarily unavailable" ||
  includesS result.message "HTTP 5"

/-- Model of `sendXmlRpcPingAttempt` of `xmlrpc.ts`, with the transport outcome
abstracted as `ev` and the attempt's measured elapsed time as `rt`. -/
def sendXmlRpcPingAttempt (ev : FetchEvent) (timeout : Nat) (endpoint : String)
    (rt : Nat) : XmlRpcPingResult :=
  match ev with
  | .response resp =>
    if ¬ (200 ≤ resp.status ∧ resp.status < 300) then
      { success := false, flerror := true,
        message := "HTTP " ++ natStr resp.status ++ ": " ++ resp.statusText,
        endpoint := endpoint, responseTime := rt }
    else
      let parsed := parseXmlRpcResponse resp.bodyText
      { success := !parsed.flerror, flerror := parsed.flerror,
        message := parsed.message, endpoint := endpoint, responseTime := rt }
  | .abortError =>
    { success := false, flerror := true,
      message := "Request timed out after " ++ natStr timeout ++ "ms",
      endpoint := endpoint, responseTime := rt }
  | .otherError _ =>
    { success := false, flerror := true,
      message := "Service temporarily unavailable",
      endpoint := endpoint, responseTime := rt }
  | .thrownNonError =>
    { success := false, flerror := true,
      message := "Service temporarily unavailable",
      endpoint := endpoint, responseTime := rt }

/-- The suffix appended to the message when all retries are exhausted. -/
def retriedMsg (maxRetries : Nat) : String :=
  if 0 < maxRetries then " (after " ++ natStr (maxRetries + 1) ++ " attempts)" else ""

/-- The retry loop of `sendXmlRpcPing` (lines 321–383), with the
attempt outcomes given by the oracle `att` (attempt-indexed).  `a` is
the loop's `attempt` counter, `t` the accumulated
`totalResponseTime`; the returned `Nat` counts codec invocations.  The
fuel equals `maxRetries - a` at every call, so the fuel-0 arm and the
`a < maxRetries` test agree; both fall through to the exhausted
return, which annotates the last result and carries the accumulated
time. -/
def pingLoopX (att : Nat → XmlRpcPingResult) (maxRetries : Nat) :
    Nat → Nat → Nat → XmlRpcPingResult × Nat
  | fuel, a, t =>
    let r := att a
    let t' := t + r.responseTime
    if r.success then (r, a + 1)
    else if isRetryableErrorX r = false then (r, a + 1)
    else
      match fuel with
      | fuel' + 1 =>
        if a < maxRetries then pingLoopX att maxRetries fuel' (a + 1) t'
        else
          ({ r with
              message := r.message ++ retriedMsg maxRetries,
              responseTime := t' }, a + 1)
      | 0 =>
        ({ r with
            message := r.message ++ retriedMsg maxRetries,
            responseTime := t' }, a + 1)

/-- Model of `sendXmlRpcPing`: run the attempt loop from attempt 0 with zero
accumulated time. -/
def sendXmlRpcPing (att : Nat → XmlRpcPingResult) (maxRetries : Nat) :
    XmlRpcPingResult × Nat :=
  pingLoopX att maxRetries maxRetries 0 0

/-! ### WebSub delivery unit (`websub.ts`) -/

/-- Model of `isRetryableError` of `websub.ts` (lines 23–28). -/
def isRetryableErrorW (result : WebSubResult) : Bool :=
  includesS result.message "timed out" ||
  includesS result.message "Network error" ||
  (500 ≤ result.statusCode && result.statusCode < 600)

def isDigitStr (h : String) : Bool := !h.data.isEmpty && h.data.all Char.isDigit

/-- Model of `Math.ceil(d / 1000)` on an exact integer millisecond delta. -/
def ceilDivMs (d : Int) : Int :=
  if 0 ≤ d then (d + 999) / 1000 else -((-d) / 1000)

/-- The `Retry-After` parsing of `notifyHubAttempt` (lines 68–87): a
missing or empty header defaults to 60 seconds; an all-digit value is
the second count; otherwise the value is parsed as a date and turned
into a non-negative ceiling of the second delta from `now`, falling
back to 60 when the date does not parse. -/
def retryAfterSeconds (hdr : Option String) (now : Int)
    (parseDate : String → Option Int) : Nat :=
  match hdr with
  | none => 60
  | some h =>
    if h = "" then 60
    else if isDigitStr h then digitsToNat h.data
    else
      match parseDate h with
      | some tdate => (max 0 (ceilDivMs (tdate - now))).toNat
      | none => 60

/-- Model of `notifyHubAttempt` of `websub.ts` (lines 33–164): the transport
outcome is `ev`, the measured elapsed time `rt`, `now` the value of
`Date.now()` at header-parsing time, and `parseDate` the JavaScript
`new Date(string)` parser (`none` = `NaN`). -/
def notifyHubAttempt (ev : FetchEvent) (timeout : Nat) (hubUrl : String)
    (rt : Nat) (now : Int) (parseDate : String → Option Int) : WebSubResult :=
  match ev with
  | .response resp =>
    if resp.status = 429 ∨ resp.status = 503 then
      let retrySeconds : Nat := retryAfterSeconds resp.retryAfterHeader now parseDate
      { success := false, statusCode := resp.status,
        message := (if resp.status = 429 then "Rate limited. Retry after "
                    else "Service unavailable. Retry after ")
                   ++ natStr retrySeconds ++ "s",
        hubUrl := hubUrl, responseTime := rt, retryAfter := some retrySeconds }
    else
      let ok : Bool := decide (200 ≤ resp.status ∧ resp.status < 300)
      { success := ok, statusCode := resp.status,
        message :=
          if ok then "Hub notified successfully"
          else if jsTrimS resp.bodyText ≠ "" then jsTrimS resp.bodyText
          else "HTTP " ++ natStr resp.status ++ ": " ++ resp.statusText,
        hubUrl := hubUrl, responseTime := rt, retryAfter := none }
  | .abortError =>
    { success := false, statusCode := 0,
      message := "Request timed out after " ++ natStr timeout ++ "ms",
      hubUrl := hubUrl, responseTime := rt, retryAfter := none }
  | .otherError m =>
    { success := false, statusCode := 0,
      message := "Network error: " ++ m,
      hubUrl := hubUrl, responseTime := rt, retryAfter := none }
  | .thrownNonError =>
    { success := false, statusCode := 0,
      message := "Unknown error occurred",
      hubUrl := hubUrl, responseTime := rt, retryAfter := none }

/-- The retry loop of `notifyHub` (lines 184–246); structure identical
to `pingLoopX` but classified by `isRetryableErrorW`. -/
def pingLoopW (att : Nat → WebSubResult) (maxRetries : Nat) :
    Nat → Nat → Nat → WebSubResult × Nat
  | fuel, a, t =>
    let r := att a
    let t' := t + r.responseTime
    if r.success then (r, a + 1)
    else if isRetryableErrorW r = false then (r, a + 1)
    else
      match fuel with
      | fuel' + 1 =>
        if a < maxRetries then pingLoopW att maxRetries fuel' (a + 1) t'
        else
          ({ r with
              message := r.message ++ retriedMsg maxRetries,
              responseTime := t' }, a + 1)
      | 0 =>
        ({ r with
            message := r.message ++ retriedMsg maxRetries,
            responseTime := t' }, a + 1)

/-- Model of `notifyHub`: run the attempt loop from attempt 0. -/
def notifyHub (att : Nat → WebSubResult) (maxRetries : Nat) :
    WebSubResult × Nat :=
  pingLoopW att maxRetries maxRetries 0 0

/-! ### Aggregation (`ping.mts`, lines 308–332)

The handler folds the flattened per-URL result lists into a `Map`
keyed by service name (insertion-ordered, modelled as a list). -/

/-- One iteration of the aggregation loop body. -/
def aggStep (m : List PingResult) (result : PingResult) : List PingResult :=
  match m.find? (fun e => e.service == result.service) with
  | none => m ++ [result]
  | some existing =>
    if result.success = false ∧ existing.success = true then
      m.map (fun x =>
        if x.service == result.service then
          { existing with
              success := false,
              message := "Partial: some URLs failed",
              error := result.error }
        else x)
    else m

/-- The whole aggregation: fold the nested `for` loops over the
flattened `resultsPerUrl` in order. -/
def aggregate (results : List PingResult) : List PingResult :=
  results.foldl aggStep []

/-- Aggregation over the per-URL result lists as the handler iterates
them. -/
def aggregateAll (resultsPerUrl : List (List PingResult)) : List PingResult :=
  aggregate resultsPerUrl.flatten

/-- Model of `serviceResults.get(name)` on the insertion-ordered map. -/
def lookupService (s : String) (m : List PingResult) : Option PingResult :=
  m.find? (fun e => e.service == s)

/-! ### Request validation (`ping.mts`, lines 25–85) -/

/-- An element of the request's `urls` array: a string or some other
JSON value (filtered out by the `typeof` check). -/
inductive UrlItem where
  | str (s : String)
  | nonString
deriving DecidableEq, Repr

/-- The parsed request body as far as `validateRequest` discriminates
it. -/
inductive ReqBody where
  | invalidBody
  | noUrlsField
  | withUrls (items : List UrlItem)
deriving DecidableEq, Repr

def itemStrings : List UrlItem → List String
  | [] => []
  | .str s :: rest => s :: itemStrings rest
  | .nonString :: rest => itemStrings rest

/-- The `urls` list after the filter/trim/filter pipeline of
`validateRequest`. -/
def filteredUrls (items : List UrlItem) : List String :=
  ((itemStrings items).map jsTrimS).filter (fun u => u.length > 0)

structure ValidationResult where
  valid : Bool
  urls : List String
  error : Option String := none
deriving DecidableEq, Repr

/-- Model of `validateRequest` of `ping.mts`.  `urlValid` abstracts
`URL_PATTERN.test` and `urlSafe` abstracts `isUrlSafe` (returning the
reason when unsafe); both run only after the emptiness and count
gates. -/
def validateRequest (urlValid : String → Bool) (urlSafe : String → Option String) :
    ReqBody → ValidationResult
  | .invalidBody => ⟨false, [], some "Invalid request body"⟩
  | .noUrlsField => ⟨false, [], some "Missing required field: urls (array)"⟩
  | .withUrls items =>
    let urls := filteredUrls items
    if urls.length = 0 then ⟨false, [], some "No valid URLs provided"⟩
    else if urls.length > MAX_URLS then
      ⟨false, [], some ("Maximum " ++ natStr MAX_URLS ++ " URLs allowed, received "
        ++ natStr urls.length)⟩
    else
      let invalidUrls := urls.filter (fun u => !urlValid u)
      let unsafeUrls := (urls.filter urlValid).filterMap
        (fun u => (urlSafe u).map (fun reason => u ++ ": " ++ reason))
      if invalidUrls ≠ [] then
        ⟨false, [], some ("Invalid URL format: "
          ++ String.intercalate ", " (invalidUrls.take 3)
          ++ (if invalidUrls.length > 3 then "..." else ""))⟩
      else
        match unsafeUrls with
        | u :: _ => ⟨false, [], some ("Security: " ++ u)⟩
        | [] => ⟨true, urls, none⟩

/-- The handler's decision after parsing the JSON body: an early
HTTP-400 rejection, or proceeding to the ping fan-out with the
validated URLs.  All outbound network work of the handler happens
strictly after a `proceed` outcome. -/
inductive GateOutcome where
  | reject (status : Nat) (error : String)
  | proceed (urls : List String)
deriving DecidableEq, Repr

/-- The validation gate of the handler (`ping.mts` lines 259–267). -/
def pingHandlerGate (urlValid : String → Bool) (urlSafe : String → Option String)
    (body : ReqBody) : GateOutcome :=
  let v := validateRequest urlValid urlSafe body
  if v.valid then .proceed v.urls
  else .reject 400 (v.error.getD "")

/-! ### Lemmas about the retry loops -/

theorem pingLoopX_succ_of_failures (att : Nat → XmlRpcPingResult) (m : Nat) :
    ∀ (j a t : Nat),
    (∀ i, a ≤ i → i < a + j → (att i).success = false ∧ isRetryableErrorX (att i) = true) →
    (att (a + j)).success = true → a + j ≤ m →
    pingLoopX att m (m - a) a t = (att (a + j), a + j + 1) := by
  intro j
  induction j with
  | zero =>
    intro a t _ hsucc _
    rw [pingLoopX.eq_def]
    simp only [Nat.add_zero] at hsucc
    simp [hsucc]
  | succ j ih =>
    intro a t hfail hsucc hle
    have hf := hfail a (Nat.le_refl a) (by omega)
    have ham : a < m := by omega
    have hfuel : m - a = (m - (a + 1)) + 1 := by omega
    rw [pingLoopX.eq_def, hfuel]
    simp only [hf.1, hf.2, Bool.true_eq_false, if_false, if_pos ham]
    have := ih (a + 1) (t + (att a).responseTime)
      (fun i h1 h2 => hfail i (by omega) (by omega))
      (by rw [show a + 1 + j = a + (j + 1) by omega]; exact hsucc) (by omega)
    rw [this, show a + 1 + j = a + (j + 1) by omega]
    simp

theorem pingLoopX_exhausted (att : Nat → XmlRpcPingResult) (m : Nat) :
    ∀ (j a t : Nat), a + j = m →
    (∀ i, a ≤ i → i ≤ m → (att i).success = false ∧ isRetryableErrorX (att i) = true) →
    pingLoopX att m (m - a) a t =
      ({ att m with
          message := (att m).message ++ retriedMsg m,
          responseTime := t + ∑ i ∈ Finset.range (j + 1), (att (a + i)).responseTime },
       m + 1) := by
  intro j
  induction j with
  | zero =>
    intro a t ham hfail
    have hf := hfail a (Nat.le_refl a) (by omega)
    have ham' : a = m := by omega
    subst ham'
    have hfuel : a - a = 0 := by omega
    rw [pingLoopX.eq_def, hfuel]
    simp [hf.1, hf.2, Finset.sum_range_one]
  | succ j ih =>
    intro a t ham hfail
    have hf := hfail a (Nat.le_refl a) (by omega)
    have hlt : a < m := by omega
    have hfuel : m - a = (m - (a + 1)) + 1 := by omega
    rw [pingLoopX.eq_def, hfuel]
    simp only [hf.1, hf.2, Bool.true_eq_false, if_false, if_pos hlt]
    rw [ih (a + 1) (t + (att a).responseTime) (by omega)
      (fun i h1 h2 => hfail i (by omega) h2)]
    have hsum : t + (att a).responseTime
        + ∑ i ∈ Finset.range (j + 1), (att (a + 1 + i)).responseTime
        = t + ∑ i ∈ Finset.range (j + 1 + 1), (att (a + i)).responseTime := by
      rw [Finset.sum_range_succ' (fun i => (att (a + i)).responseTime) (j + 1)]
      have hidx : ∀ k : Nat, (att (a + (k + 1))).responseTime
          = (att (a + 1 + k)).responseTime := fun k => by
        rw [show a + (k + 1) = a + 1 + k by omega]
      simp only [hidx, Nat.add_zero]
      omega
    rw [hsum]
    simp

theorem pingLoopX_invocations_le (att : Nat → XmlRpcPingResult) (m : Nat) :
    ∀ (fuel a t : Nat), a ≤ m →
    (pingLoopX att m fuel a t).2 ≤ m + 1 := by
  intro fuel
  induction fuel with
  | zero =>
    intro a t ha
    rw [pingLoopX.eq_def]
    by_cases hs : (att a).success <;>
      by_cases hr : isRetryableErrorX (att a) = false <;>
      simp [hs, hr] <;> omega
  | succ fuel ih =>
    intro a t ha
    rw [pingLoopX.eq_def]
    by_cases hs : (att a).success
    · simp [hs]; omega
    · by_cases hr : isRetryableErrorX (att a) = false
      · simp [hs, hr]; omega
      · by_cases ham : a < m
        · simpa [hs, hr, ham] using ih (a + 1) (t + (att a).responseTime) (by omega)
        · simp [hs, hr, ham]; omega

theorem pingLoopW_invocations_le (att : Nat → WebSubResult) (m : Nat) :
    ∀ (fuel a t : Nat), a ≤ m →
    (pingLoopW att m fuel a t).2 ≤ m + 1 := by
  intro fuel
  induction fuel with
  | zero =>
    intro a t ha
    rw [pingLoopW.eq_def]
    by_cases hs : (att a).success <;>
      by_cases hr : isRetryableErrorW (att a) = false <;>
      simp [hs, hr] <;> omega
  | succ fuel ih =>
    intro a t ha
    rw [pingLoopW.eq_def]
    by_cases hs : (att a).success
    · simp [hs]; omega
    · by_cases hr : isRetryableErrorW (att a) = false
      · simp [hs, hr]; omega
      · by_cases ham : a < m
        · simpa [hs, hr, ham] using ih (a + 1) (t + (att a).responseTime) (by omega)
        · simp [hs, hr, ham]; omega

theorem pingLoopW_invocations_ge (att : Nat → WebSubResult) (m : Nat) :
    ∀ (fuel a t : Nat), a + 1 ≤ (pingLoopW att m fuel a t).2 := by
  intro fuel
  induction fuel with
  | zero =>
    intro a t
    rw [pingLoopW.eq_def]
    by_cases hs : (att a).success <;>
      by_cases hr : isRetryableErrorW (att a) = false <;>
      simp [hs, hr]
  | succ fuel ih =>
    intro a t
    rw [pingLoopW.eq_def]
    by_cases hs : (att a).success
    · simp [hs]
    · by_cases hr : isRetryableErrorW (att a) = false
      · simp [hs, hr]
      · by_cases ham : a < m
        · have h2 := ih (a + 1) (t + (att a).responseTime)
          simp [hs, hr, ham]
          omega
        · simp [hs, hr, ham]

theorem pingLoopW_first_not_retryable (att : Nat → WebSubResult) (m : Nat)
    (fuel t : Nat) (h0 : (att 0).success = false)
    (hr : isRetryableErrorW (att 0) = false) :
    pingLoopW att m fuel 0 t = (att 0, 1) := by
  rw [pingLoopW.eq_def]
  simp [h0, hr]

theorem pingLoopX_first_not_retryable (att : Nat → XmlRpcPingResult) (m : Nat)
    (fuel t : Nat) (h0 : (att 0).success = false)
    (hr : isRetryableErrorX (att 0) = false) :
    pingLoopX att m fuel 0 t = (att 0, 1) := by
  rw [pingLoopX.eq_def]
  simp [h0, hr]

theorem pingLoopW_first_retryable_retries (att : Nat → WebSubResult) (m : Nat)
    (t : Nat) (hm : 1 ≤ m) (h0 : (att 0).success = false)
    (hr : isRetryableErrorW (att 0) = true) :
    2 ≤ (pingLoopW att m (m - 0) 0 t).2 := by
  have hfuel : m - 0 = (m - 1) + 1 := by omega
  rw [pingLoopW.eq_def, hfuel]
  have hm0 : 0 < m := hm
  have hge := pingLoopW_invocations_ge att m (m - 1) 1 (t + (att 0).responseTime)
  simp [h0, hr, hm0]
  omega

/-! ### Lemmas about the aggregation loop -/

/-- First delivery outcome for service `s` in the flattened result
list (the outcome that seeds the aggregate). -/
def firstFor (s : String) (rs : List PingResult) : Option PingResult :=
  rs.find? (fun r => r.service == s)

/-- First failed delivery outcome for service `s`. -/
def firstFailFor (s : String) (rs : List PingResult) : Option PingResult :=
  rs.find? (fun r => r.service == s && !r.success)

/-- The downgraded entry written by the aggregation loop when a
failure hits a currently-successful aggregate. -/
def downgradedWith (f b : PingResult) : PingResult :=
  { f with success := false, message := "Partial: some URLs failed", error := b.error }

/-- Closed form of the fold's entry for one service: the first outcome
seeds it; if that seed succeeded and some later outcome failed, it is
downgraded once (at the first failure); otherwise it stays the seed. -/
def aggEntrySpec (s : String) (rs : List PingResult) : Option PingResult :=
  match firstFor s rs with
  | none => none
  | some f =>
    if f.success = true then
      match firstFailFor s rs with
      | none => some f
      | some b => some (downgradedWith f b)
    else some f

theorem find?_map_of_pred {α : Type} (f : α → α) (p : α → Bool)
    (hp : ∀ x, p (f x) = p x) :
    ∀ l : List α, (l.map f).find? p = (l.find? p).map f := by
  intro l
  induction l with
  | nil => rfl
  | cons x xs ih =>
    simp only [List.map_cons, List.find?_cons]
    rw [hp x]
    cases hpx : p x
    · simpa using ih
    · rfl

/-- Test `allOkFor s rs`: every outcome for service `s` in `rs` succeeded. -/
def allOkFor (s : String) (rs : List PingResult) : Bool :=
  rs.all (fun r => !(r.service == s) || r.success)

/-- Replacing (in place) the entries keyed `sv` does not disturb the
lookup of a different key. -/
theorem lookup_map_update_ne (m : List PingResult) (v : PingResult) (sv s : String)
    (hvs : v.service = sv) (hne : (sv == s) = false) :
    lookupService s (m.map (fun x => if x.service == sv then v else x))
      = lookupService s m := by
  rw [lookupService, lookupService,
    find?_map_of_pred (fun x => if x.service == sv then v else x)
      (fun e => e.service == s) ?hp m]
  case hp =>
    intro x
    show ((if (x.service == sv) = true then v else x).service == s)
      = (x.service == s)
    by_cases hx : (x.service == sv) = true
    · have h2 : x.service = sv := beq_iff_eq.mp hx
      rw [if_pos hx, hvs, h2]
    · rw [if_neg hx]
  cases hl : m.find? (fun e => e.service == s) with
  | none => rfl
  | some e' =>
    have he' : (e'.service == s) = true :=
      List.find?_some (p := fun e : PingResult => e.service == s) hl
    have hne' : ¬ ((e'.service == sv) = true) := by
      intro h
      have h1 : e'.service = sv := beq_iff_eq.mp h
      have h2 : e'.service = s := beq_iff_eq.mp he'
      rw [← h1, h2, beq_iff_eq.mpr rfl] at hne
      exact Bool.noConfusion hne
    show some (if (e'.service == sv) = true then v else e') = some e'
    rw [if_neg hne']

/-- Replacing the entries keyed `sv` rewrites the looked-up entry for
key `sv` itself. -/
theorem lookup_map_update_eq (m : List PingResult) (v e : PingResult) (sv : String)
    (hvs : v.service = e.service)
    (hfind : m.find? (fun x => x.service == sv) = some e) :
    lookupService sv (m.map (fun x => if x.service == sv then v else x))
      = some v := by
  have hes : (e.service == sv) = true :=
    List.find?_some (p := fun x : PingResult => x.service == sv) hfind
  rw [lookupService,
    find?_map_of_pred (fun x => if x.service == sv then v else x)
      (fun x => x.service == sv) ?hp m]
  case hp =>
    intro x
    show ((if (x.service == sv) = true then v else x).service == sv)
      = (x.service == sv)
    by_cases hx : (x.service == sv) = true
    · rw [if_pos hx, hvs, beq_iff_eq.mp hes, hx, beq_iff_eq.mpr rfl]
    · rw [if_neg hx]
  rw [hfind]
  show some (if (e.service == sv) = true then v else e) = some v
  rw [if_pos hes]

/-- How one aggregation step changes the map entry for `s`. -/
theorem lookup_aggStep (m : List PingResult) (r : PingResult) (s : String) :
    lookupService s (aggStep m r) =
      if r.service == s then
        match lookupService s m with
        | none => some r
        | some e =>
          if r.success = false ∧ e.success = true then
            some { e with
                    success := false,
                    message := "Partial: some URLs failed",
                    error := r.error }
          else some e
      else lookupService s m := by
  by_cases hrs : (r.service == s) = true
  · have hr : r.service = s := beq_iff_eq.mp hrs
    rw [aggStep]
    cases hfind : m.find? (fun e => e.service == r.service) with
    | none =>
      have hfind' : lookupService s m = none := by
        rw [lookupService]; rw [hr] at hfind; exact hfind
      simp only [hrs, if_true, hfind']
      rw [lookupService, List.find?_append,
        show List.find? (fun e => e.service == s) m = none from hfind',
        Option.none_or]
      simp [List.find?_cons, hrs]
    | some e =>
      have hfind' : lookupService s m = some e := by
        rw [lookupService]; rw [hr] at hfind; exact hfind
      simp only [hrs, if_true, hfind']
      by_cases hc : r.success = false ∧ e.success = true
      · simp only [hc, if_true]
        rw [← hr]
        exact lookup_map_update_eq m
          { e with
              success := false,
              message := "Partial: some URLs failed",
              error := r.error }
          e r.service rfl hfind
      · simp only [hc, if_false]
        exact hfind'
  · have hrs' : (r.service == s) = false := by
      cases h : r.service == s
      · rfl
      · exact absurd h hrs
    rw [aggStep]
    cases hfind : m.find? (fun e => e.service == r.service) with
    | none =>
      simp only [hrs', Bool.false_eq_true, if_false]
      rw [lookupService, List.find?_append]
      have : List.find? (fun e => e.service == s) [r] = none := by
        simp [List.find?_cons, hrs']
      rw [this, Option.or_none]
      rfl
    | some e =>
      by_cases hc : r.success = false ∧ e.success = true
      · have hes : (e.service == r.service) = true :=
          List.find?_some (p := fun x : PingResult => x.service == r.service) hfind
        simp only [hrs', Bool.false_eq_true, if_false, hc, if_true]
        exact lookup_map_update_ne m _ r.service s (beq_iff_eq.mp hes) hrs'
      · simp only [hrs', Bool.false_eq_true, if_false]
        rw [if_neg hc]

theorem aggregate_append (l : List PingResult) (r : PingResult) :
    aggregate (l ++ [r]) = aggStep (aggregate l) r := by
  rw [aggregate, aggregate, List.foldl_append]
  rfl

theorem firstFor_append (s : String) (l : List PingResult) (r : PingResult) :
    firstFor s (l ++ [r]) = (firstFor s l).or (firstFor s [r]) := by
  rw [firstFor, firstFor, firstFor, List.find?_append]

theorem firstFailFor_append (s : String) (l : List PingResult) (r : PingResult) :
    firstFailFor s (l ++ [r]) = (firstFailFor s l).or (firstFailFor s [r]) := by
  rw [firstFailFor, firstFailFor, firstFailFor, List.find?_append]

theorem firstFor_single_of_ne {s : String} {r : PingResult}
    (hrs : (r.service == s) = false) : firstFor s [r] = none := by
  simp [firstFor, List.find?_cons, hrs]

theorem firstFor_single_of_eq {s : String} {r : PingResult}
    (hrs : (r.service == s) = true) : firstFor s [r] = some r := by
  simp [firstFor, List.find?_cons, hrs]

theorem firstFailFor_single {s : String} {r : PingResult} :
    firstFailFor s [r] =
      if (r.service == s) && !r.success then some r else none := by
  cases h : (r.service == s) && !r.success <;>
    simp [firstFailFor, List.find?_cons, h]

theorem firstFailFor_none_of_firstFor_none {s : String} {l : List PingResult}
    (hf : firstFor s l = none) : firstFailFor s l = none := by
  have hnone : ∀ x ∈ l, ¬ (x.service == s) = true := List.find?_eq_none.mp hf
  rw [firstFailFor, List.find?_eq_none]
  intro x hx hcontra
  rw [Bool.and_eq_true] at hcontra
  exact hnone x hx hcontra.1

/-- Appending an outcome for a different service leaves the closed
form unchanged. -/
theorem aggEntrySpec_append_ne {s : String} {r : PingResult} (l : List PingResult)
    (hrs' : (r.service == s) = false) :
    aggEntrySpec s (l ++ [r]) = aggEntrySpec s l := by
  simp only [aggEntrySpec.eq_def, firstFor_append, firstFailFor_append,
    firstFor_single_of_ne hrs', firstFailFor_single, hrs', Bool.false_and,
    Bool.false_eq_true, if_false, Option.or_none]

/-- Appending an outcome for service `s` transforms the closed form
exactly as one aggregation step transforms the map entry. -/
theorem aggEntrySpec_append_eq {s : String} {r : PingResult} (l : List PingResult)
    (hrs : (r.service == s) = true) :
    aggEntrySpec s (l ++ [r]) =
      match aggEntrySpec s l with
      | none => some r
      | some e =>
        if r.success = false ∧ e.success = true then some (downgradedWith e r)
        else some e := by
  cases hf : firstFor s l with
  | none =>
    have hffl : firstFailFor s l = none := firstFailFor_none_of_firstFor_none hf
    have h1 : aggEntrySpec s l = none := by rw [aggEntrySpec.eq_def, hf]
    rw [h1, aggEntrySpec.eq_def, firstFor_append, hf, Option.none_or,
      firstFor_single_of_eq hrs]
    simp only []
    cases hrsucc : r.success with
    | true =>
      simp [hrsucc, firstFailFor_append, hffl, firstFailFor_single, hrs]
    | false =>
      simp [hrsucc]
  | some f =>
    rw [aggEntrySpec.eq_def, firstFor_append, hf,
      show (some f).or (firstFor s [r]) = some f from rfl]
    simp only []
    by_cases hfs : f.success = true
    · cases hffl : firstFailFor s l with
      | none =>
        have hel : aggEntrySpec s l = some f := by
          rw [aggEntrySpec.eq_def, hf]
          simp only []
          rw [if_pos hfs, hffl]
        rw [hel]
        simp only []
        rw [if_pos hfs, firstFailFor_append, hffl, Option.none_or,
          firstFailFor_single]
        cases hrsucc : r.success with
        | true => simp [hrs]
        | false => simp [hrs, hfs]
      | some b =>
        have hel : aggEntrySpec s l = some (downgradedWith f b) := by
          rw [aggEntrySpec.eq_def, hf]
          simp only []
          rw [if_pos hfs, hffl]
        have hno : ¬ (r.success = false ∧ (downgradedWith f b).success = true) := by
          intro hcontra
          exact Bool.noConfusion hcontra.2
        rw [hel]
        simp only []
        rw [if_neg hno, if_pos hfs, firstFailFor_append, hffl,
          show (some b).or (firstFailFor s [r]) = some b from rfl]
    · have hel : aggEntrySpec s l = some f := by
        rw [aggEntrySpec.eq_def, hf]
        simp only []
        rw [if_neg hfs]
      have hno : ¬ (r.success = false ∧ f.success = true) := by
        intro hcontra
        exact hfs hcontra.2
      rw [hel]
      simp only []
      rw [if_neg hfs, if_neg hno]

/-- The characterization of the aggregation fold: the looked-up entry
for each service is exactly the closed form `aggEntrySpec`. -/
theorem aggregate_lookup (s : String) (rs : List PingResult) :
    lookupService s (aggregate rs) = aggEntrySpec s rs := by
  induction rs using List.reverseRecOn with
  | nil => rfl
  | append_singleton l r ih =>
    rw [aggregate_append, lookup_aggStep, ih]
    by_cases hrs : (r.service == s) = true
    · rw [if_pos hrs, aggEntrySpec_append_eq l hrs]
      rfl
    · have hrs' : (r.service == s) = false := by
        cases h : r.service == s
        · rfl
        · exact absurd h hrs
      rw [if_neg (by rw [hrs']; exact Bool.noConfusion),
        aggEntrySpec_append_ne l hrs']

/-! ### Occurrence facts about the delivery units' messages -/

/-- A trigger substring that sits inside the literal prefix of a
message survives any appended rendered number and unit suffix. -/
theorem includesS_front_append (pre mid post : String) (pat : String)
    (h : listContains pre.data pat.data = true) :
    includesS (pre ++ mid ++ post) pat = true := by
  rw [includesS, String.data_append, String.data_append]
  exact listContains_append_left _ (listContains_append_left _ h)

/-- A pattern starting a message is contained in it. -/
theorem includesS_of_leading (pre rest : String) (pat : String)
    (h : leadsWith pat.data pre.data = true) :
    includesS (pre ++ rest) pat = true := by
  rw [includesS, String.data_append]
  exact listContains_of_leadsWith (leadsWith_append _ h)

/-- Messages of the form `pre ++ digits ++ "s"` cannot contain a
pattern that avoids digits and the letter `s` and does not occur in
`pre`. -/
theorem includesS_pre_digits_s_eq_false (pre : String) (n : Nat) (pat : String)
    (hne : pat.data ≠ [])
    (hpre : listContains pre.data pat.data = false)
    (hpat : ∀ p ∈ pat.data, p.isDigit = false ∧ ¬ p = 's') :
    includesS (pre ++ natStr n ++ "s") pat = false := by
  rw [includesS, String.data_append, String.data_append, List.append_assoc]
  apply listContains_append_eq_false hne hpre
  intro c hc p hp hce
  rcases List.mem_append.mp hc with hcd | hcs
  · have hdig := natDigits_all_digit n c hcd
    rw [hce, (hpat p hp).1] at hdig
    exact Bool.noConfusion hdig
  · have hs : "s".data = ['s'] := rfl
    rw [hs] at hcs
    have hcs' : c = 's' := List.mem_singleton.mp hcs
    exact (hpat p hp).2 (by rw [← hce, hcs'])

/-- The XML-RPC timeout message is classified retryable. -/
theorem isRetryableErrorX_abort (t : Nat) (ep : String) (rt : Nat) :
    isRetryableErrorX (sendXmlRpcPingAttempt .abortError t ep rt) = true := by
  rw [sendXmlRpcPingAttempt, isRetryableErrorX]
  have h : includesS ("Request timed out after " ++ natStr t ++ "ms") "timed out"
      = true :=
    includesS_front_append "Request timed out after " (natStr t) "ms" _ (by decide)
  simp [h]

/-- The XML-RPC network-failure message is classified retryable. -/
theorem isRetryableErrorX_network (msg : String) (t : Nat) (ep : String) (rt : Nat) :
    isRetryableErrorX (sendXmlRpcPingAttempt (.otherError msg) t ep rt) = true := by
  show (includesS "Service temporarily unavailable" "timed out"
    || includesS "Service temporarily unavailable" "temporarily unavailable"
    || includesS "Service temporarily unavailable" "HTTP 5") = true
  decide

/-- An XML-RPC attempt answered with a 5xx status yields a message
starting `"HTTP 5"`, hence classified retryable. -/
theorem isRetryableErrorX_5xx (resp : HttpResponse) (t : Nat) (ep : String) (rt : Nat)
    (h1 : 500 ≤ resp.status) (h2 : resp.status < 600) :
    isRetryableErrorX (sendXmlRpcPingAttempt (.response resp) t ep rt) = true := by
  have hok : ¬ (200 ≤ resp.status ∧ resp.status < 300) := by omega
  obtain ⟨c, cs, hc⟩ := List.exists_cons_of_ne_nil (natDigits_ne_nil resp.status)
  have hhead : c = '5' := by
    have h5 := natDigits_head_5xx h1 h2
    rw [hc] at h5
    simp only [List.head?_cons, Option.some.injEq] at h5
    exact h5
  have hinc : includesS ("HTTP " ++ natStr resp.status ++ ": " ++ resp.statusText)
      "HTTP 5" = true := by
    rw [includesS]
    apply listContains_of_leadsWith
    have hdata : ("HTTP " ++ natStr resp.status ++ ": " ++ resp.statusText).data
        = "HTTP ".data ++ (natDigits resp.status
            ++ (": ".data ++ resp.statusText.data)) := by
      rw [String.data_append, String.data_append, String.data_append,
        List.append_assoc, List.append_assoc]
      rfl
    rw [hdata, hc, hhead,
      show "HTTP 5".data = ['H', 'T', 'T', 'P', ' ', '5'] from rfl,
      show "HTTP ".data = ['H', 'T', 'T', 'P', ' '] from rfl]
    simp [leadsWith]
  rw [sendXmlRpcPingAttempt, if_pos hok, isRetryableErrorX]
  simp [hinc]

/-- The WebSub timeout message is classified retryable. -/
theorem isRetryableErrorW_abort (t : Nat) (hub : String) (rt : Nat) (now : Int)
    (pd : String → Option Int) :
    isRetryableErrorW (notifyHubAttempt .abortError t hub rt now pd) = true := by
  rw [notifyHubAttempt, isRetryableErrorW]
  have h : includesS ("Request timed out after " ++ natStr t ++ "ms") "timed out"
      = true :=
    includesS_front_append "Request timed out after " (natStr t) "ms" _ (by decide)
  simp [h]

/-- The WebSub network-failure message is classified retryable. -/
theorem isRetryableErrorW_network (msg : String) (t : Nat) (hub : String) (rt : Nat)
    (now : Int) (pd : String → Option Int) :
    isRetryableErrorW (notifyHubAttempt (.otherError msg) t hub rt now pd) = true := by
  rw [notifyHubAttempt, isRetryableErrorW]
  have h : includesS ("Network error: " ++ msg) "Network error" = true :=
    includesS_of_leading "Network error: " msg _ (by decide)
  simp [h]

/-- Any WebSub outcome whose status code is 5xx is classified
retryable, whatever its message. -/
theorem isRetryableErrorW_5xx (w : WebSubResult)
    (h1 : 500 ≤ w.statusCode) (h2 : w.statusCode < 600) :
    isRetryableErrorW w = true := by
  rw [isRetryableErrorW]
  simp [h1, h2]

/-- The 429 rate-limit message triggers none of the retry substrings. -/
theorem rateLimited_msg_clean (n : Nat) :
    includesS ("Rate limited. Retry after " ++ natStr n ++ "s") "timed out" = false
    ∧ includesS ("Rate limited. Retry after " ++ natStr n ++ "s") "Network error"
        = false := by
  constructor
  · exact includesS_pre_digits_s_eq_false "Rate limited. Retry after " n "timed out"
      (by decide) (by decide) (by decide)
  · exact includesS_pre_digits_s_eq_false "Rate limited. Retry after " n
      "Network error" (by decide) (by decide) (by decide)

/-! ### Claim C1 and C4: aggregation across URLs -/

/-- Bridge: the handler's aggregation over per-URL lists is the fold
over the flattened outcome list. -/
theorem aggregateAll_lookup (s : String) (rss : List (List PingResult)) :
    lookupService s (aggregateAll rss) = aggEntrySpec s rss.flatten :=
  aggregate_lookup s rss.flatten

/-- C1: For every orchestration run over multiple URLs, the aggregated
result for a service is marked successful only if every URL's delivery
outcome for that service succeeded: the first URL's outcome seeds the
aggregate, any later failed outcome downgrades a currently-successful
aggregate to failure with a partial-failure message, and a later
successful outcome never flips a failed aggregate back to success
(the failed seed is returned unchanged). -/
theorem agg_service_success_requires_all_urls
    (rss : List (List PingResult)) (s : String) (e : PingResult)
    (he : lookupService s (aggregateAll rss) = some e) :
    (e.success = true → ∀ x ∈ rss.flatten, x.service = s → x.success = true)
    ∧ (∀ f, firstFor s rss.flatten = some f → f.success = true →
        ∀ x ∈ rss.flatten, x.service = s → x.success = false →
          e.success = false ∧ e.message = "Partial: some URLs failed")
    ∧ (∀ f, firstFor s rss.flatten = some f → f.success = false → e = f) := by
  rw [aggregateAll_lookup] at he
  cases hf : firstFor s rss.flatten with
  | none =>
    rw [aggEntrySpec.eq_def, hf] at he
    exact Option.noConfusion he
  | some f =>
    rw [aggEntrySpec.eq_def, hf] at he
    simp only [] at he
    by_cases hfs : f.success = true
    · rw [if_pos hfs] at he
      cases hffl : firstFailFor s rss.flatten with
      | none =>
        rw [hffl] at he
        simp only [Option.some.injEq] at he
        subst he
        refine ⟨?_, ?_, ?_⟩
        · intro _ x hx hxs
          have hnone := List.find?_eq_none.mp hffl x hx
          have hbeq : (x.service == s) = true := beq_iff_eq.mpr hxs
          cases hsucc : x.success with
          | true => rfl
          | false =>
            exfalso
            exact hnone (by rw [Bool.and_eq_true, hbeq, hsucc]; exact ⟨rfl, rfl⟩)
        · intro f' _ _ x hx hxs hxfail
          exfalso
          have hnone := List.find?_eq_none.mp hffl x hx
          have hbeq : (x.service == s) = true := beq_iff_eq.mpr hxs
          exact hnone (by rw [Bool.and_eq_true, hbeq, hxfail]; exact ⟨rfl, rfl⟩)
        · intro f' hf' hf's
          injection hf' with hff'
      | some b =>
        rw [hffl] at he
        simp only [Option.some.injEq] at he
        subst he
        refine ⟨?_, ?_, ?_⟩
        · intro htrue
          exact Bool.noConfusion htrue
        · intro f' _ _ x _ _ _
          exact ⟨rfl, rfl⟩
        · intro f' hf' hf's
          injection hf' with hff'
          rw [← hff'] at hf's
          rw [hfs] at hf's
          exact Bool.noConfusion hf's
    · rw [if_neg hfs] at he
      simp only [Option.some.injEq] at he
      subst he
      refine ⟨?_, ?_, ?_⟩
      · intro htrue
        exact absurd htrue hfs
      · intro f' hf' hf's
        injection hf' with hff'
        rw [← hff'] at hf's
        exact absurd hf's hfs
      · intro f' hf' _
        injection hf' with hff'

/-- Concrete two-URL run: service A succeeds for the first URL and
fails for the second; service B succeeds for both. -/
def aggOk (svc : String) : PingResult :=
  ⟨svc, true, "Thanks for the ping!", "xmlrpc", 5, none⟩

def aggBad (svc : String) : PingResult :=
  ⟨svc, false, "HTTP 404: Not Found", "xmlrpc", 5, some "HTTP 404: Not Found"⟩

def aggRun1 : List (List PingResult) :=
  [[aggOk "A", aggOk "B"], [aggBad "A", aggOk "B"]]

def aggEntryA : PingResult :=
  ⟨"A", false, "Partial: some URLs failed", "xmlrpc", 5, some "HTTP 404: Not Found"⟩

theorem agg_service_success_requires_all_urls_witness :
    (aggEntryA.success = true →
        ∀ x ∈ aggRun1.flatten, x.service = "A" → x.success = true)
    ∧ (∀ f, firstFor "A" aggRun1.flatten = some f → f.success = true →
        ∀ x ∈ aggRun1.flatten, x.service = "A" → x.success = false →
          aggEntryA.success = false
            ∧ aggEntryA.message = "Partial: some URLs failed")
    ∧ (∀ f, firstFor "A" aggRun1.flatten = some f → f.success = false →
        aggEntryA = f) :=
  agg_service_success_requires_all_urls aggRun1 "A" aggEntryA (by decide)

/-- The run refuting C4's "at least one" reading: the first outcome for
service A fails, the second succeeds. -/
def aggRun2 : List (List PingResult) := [[aggBad "A"], [aggOk "A"]]

def aggRun2SuccessA : Option Bool :=
  (lookupService "A" (aggregateAll aggRun2)).map PingResult.success

/-- C4 counterexample: in `aggRun2` at least one URL's outcome for
service A succeeded, yet the aggregated entry's success flag is
`false` — refuting "success iff at least one URL succeeded". -/
theorem agg_success_iff_any_counterexample :
    aggRun2SuccessA = some false
    ∧ aggRun2.flatten = [aggBad "A", aggOk "A"]
    ∧ (aggOk "A").success = true
    ∧ (aggOk "A").service = "A" := by
  refine ⟨by decide, by decide, by decide, by decide⟩

/-- C4 (amended): the aggregated entry's success flag is true iff
every URL's outcome for that service succeeded. -/
theorem agg_success_iff_every_url
    (rss : List (List PingResult)) (s : String) (e : PingResult)
    (he : lookupService s (aggregateAll rss) = some e) :
    e.success = true ↔ allOkFor s rss.flatten = true := by
  rw [aggregateAll_lookup] at he
  cases hf : firstFor s rss.flatten with
  | none =>
    rw [aggEntrySpec.eq_def, hf] at he
    exact Option.noConfusion he
  | some f =>
    have hfmem : f ∈ rss.flatten := List.mem_of_find?_eq_some hf
    have hfsvc : (f.service == s) = true :=
      List.find?_some (p := fun r : PingResult => r.service == s) hf
    rw [aggEntrySpec.eq_def, hf] at he
    simp only [] at he
    constructor
    · intro htrue
      rw [allOkFor, List.all_eq_true]
      intro x hx
      by_cases hfs : f.success = true
      · rw [if_pos hfs] at he
        cases hffl : firstFailFor s rss.flatten with
        | none =>
          cases hbeq : x.service == s with
          | false => simp [hbeq]
          | true =>
            have hnone := List.find?_eq_none.mp hffl x hx
            cases hsucc : x.success with
            | true => simp [hsucc]
            | false =>
              exfalso
              exact hnone (by rw [Bool.and_eq_true, hbeq, hsucc]; exact ⟨rfl, rfl⟩)
        | some b =>
          rw [hffl] at he
          simp only [Option.some.injEq] at he
          rw [← he] at htrue
          exact Bool.noConfusion htrue
      · rw [if_neg hfs] at he
        simp only [Option.some.injEq] at he
        rw [← he] at htrue
        exact absurd htrue hfs
    · intro hall
      rw [allOkFor, List.all_eq_true] at hall
      have hfs : f.success = true := by
        have := hall f hfmem
        rw [hfsvc] at this
        simpa using this
      rw [if_pos hfs] at he
      cases hffl : firstFailFor s rss.flatten with
      | none =>
        rw [hffl] at he
        simp only [Option.some.injEq] at he
        rw [← he]
        exact hfs
      | some b =>
        exfalso
        have hbmem : b ∈ rss.flatten := List.mem_of_find?_eq_some hffl
        have hbq : (b.service == s && !b.success) = true :=
          List.find?_some (p := fun r : PingResult => r.service == s && !r.success)
            hffl
        rw [Bool.and_eq_true] at hbq
        have := hall b hbmem
        rw [hbq.1] at this
        simp only [Bool.not_true, Bool.false_or] at this
        rw [this] at hbq
        simpa using hbq.2

theorem agg_success_iff_every_url_witness :
    (aggBad "A").success = true ↔ allOkFor "A" aggRun2.flatten = true :=
  agg_success_iff_every_url aggRun2 "A" (aggBad "A") (by decide)

/-! ### Claims C2 and C8: the XML-RPC response parser -/

/-- C2 counterexample: on a body with no recognizable structure the
parser returns `flerror = false` (success) with the default message
`'Response received'` — not a fail-closed could-not-parse failure. -/
theorem parse_unrecognizable_counterexample :
    flerrorStrict (normalizeS "just some text").data = none
    ∧ flerrorWs "just some text".data = none
    ∧ messageMemberStrict (normalizeS "just some text").data = none
    ∧ messageMemberWs "just some text".data = none
    ∧ legacyMessage "just some text".data = none
    ∧ hasFault "just some text" = false
    ∧ parseXmlRpcResponse "just some text" = ⟨false, "Response received"⟩ := by
  refine ⟨?_, ?_, ?_, ?_, ?_, ?_, ?_⟩ <;> decide

/-- C2 (amended): whenever none of the parser's patterns match — no
`flerror` member, no `message` member, no legacy message, no `<fault>`
block — `parseXmlRpcResponse` returns `flerror = false` with the
default message `'Response received'`, i.e. it reports success rather
than failing closed; the generic could-not-parse failure exists only
in the dead `catch` branch. -/
theorem parse_unrecognizable_defaults_to_success (xml : String)
    (h1 : flerrorStrict (normalizeS xml).data = none)
    (h2 : flerrorWs xml.data = none)
    (h3 : messageMemberStrict (normalizeS xml).data = none)
    (h4 : messageMemberWs xml.data = none)
    (h5 : legacyMessage xml.data = none)
    (h6 : hasFault xml = false) :
    parseXmlRpcResponse xml = ⟨false, "Response received"⟩ := by
  rw [parseXmlRpcResponse, if_neg (by rw [h6]; exact Bool.noConfusion)]
  have hfl : flerrorRaw xml = false := by
    rw [flerrorRaw, h1, h2]
  have hmsg : messageRaw xml = "Response received" := by
    rw [messageRaw, h3, h4]
    simp only []
    rw [h5]
  rw [hfl, hmsg]

theorem parse_unrecognizable_defaults_to_success_witness :
    parseXmlRpcResponse "hello world" = ⟨false, "Response received"⟩ :=
  parse_unrecognizable_defaults_to_success "hello world"
    (by decide) (by decide) (by decide) (by decide) (by decide) (by decide)

/-- C8: a response body containing a `<fault>` block is classified as
failure (`flerror = true`) regardless of anything else in the
document, a stray `flerror = 0` member included. -/
theorem parse_fault_always_flerror (xml : String)
    (h : includesS xml "<fault>" = true) :
    (parseXmlRpcResponse xml).flerror = true := by
  have hf : hasFault xml = true := by
    rw [hasFault, h, Bool.or_true]
  rw [parseXmlRpcResponse, if_pos hf]

theorem parse_fault_always_flerror_witness :
    includesS
      "<name>flerror</name><value><boolean>0</boolean></value><fault></fault>"
      "<fault>" = true
    ∧ (parseXmlRpcResponse
        "<name>flerror</name><value><boolean>0</boolean></value><fault></fault>"
       ).flerror = true :=
  ⟨by decide,
   parse_fault_always_flerror
     "<name>flerror</name><value><boolean>0</boolean></value><fault></fault>"
     (by decide)⟩

/-! ### Claims C3 and C10: the retry loops -/

def c3fail : XmlRpcPingResult :=
  ⟨false, true, "Request timed out after 10000ms", "http://rpc.pingomatic.com/RPC2", 5⟩

def c3succ : XmlRpcPingResult :=
  ⟨true, false, "Thanks for the ping!", "http://rpc.pingomatic.com/RPC2", 5⟩

/-- A codec that fails retryably twice and then succeeds, each attempt
measuring 5 ms. -/
def c3att : Nat → XmlRpcPingResult := fun n => if n < 2 then c3fail else c3succ

/-- C3 counterexample: with two retryable failures then a success
(`maxRetries = 2`), `sendXmlRpcPing` does return success after exactly
3 attempts, but the outcome's elapsed time is the third attempt's 5 ms
— not the 15 ms sum of all attempts, and not bounded below by the
1500 ms sum of the two backoff delays (which are never added to the
reported elapsed time). -/
theorem sendXmlRpcPing_elapsed_counterexample :
    sendXmlRpcPing c3att 2 = (c3succ, 3)
    ∧ c3succ.responseTime = 5
    ∧ (c3att 0).responseTime + (c3att 1).responseTime + (c3att 2).responseTime = 15
    ∧ ¬ (5 : Nat) = 15
    ∧ RETRY_DELAY_MS * 2 ^ 0 + RETRY_DELAY_MS * 2 ^ 1 = 1500
    ∧ ¬ 1500 ≤ (5 : Nat) := by
  refine ⟨by decide, by decide, by decide, by decide, by decide, by decide⟩

/-- C3 (amended): when the delivery unit ends early — here, a success
at attempt `k` after `k` retryable failures — the returned outcome is
the final attempt's result verbatim, carrying only that attempt's
elapsed time, after exactly `k + 1` attempts; the sum of all attempts'
elapsed times is reported only on the exhausted path, and backoff
delays never enter the reported time (it is a function of the
attempts' own times alone). -/
theorem sendXmlRpcPing_elapsed_amended (att : Nat → XmlRpcPingResult) (m k : Nat) :
    (k ≤ m →
      (∀ i, i < k → (att i).success = false ∧ isRetryableErrorX (att i) = true) →
      (att k).success = true →
      sendXmlRpcPing att m = (att k, k + 1))
    ∧ ((∀ i, i ≤ m → (att i).success = false ∧ isRetryableErrorX (att i) = true) →
      sendXmlRpcPing att m =
        ({ att m with
            message := (att m).message ++ retriedMsg m,
            responseTime := ∑ i ∈ Finset.range (m + 1), (att i).responseTime },
         m + 1)) := by
  constructor
  · intro hk hfail hsucc
    have h := pingLoopX_succ_of_failures att m k 0 0
      (fun i h1 h2 => hfail i (by omega)) (by simpa using hsucc) (by simpa using hk)
    rw [sendXmlRpcPing]
    simpa using h
  · intro hfail
    have h := pingLoopX_exhausted att m m 0 0 (by omega) (fun i h1 h2 => hfail i h2)
    rw [sendXmlRpcPing]
    simpa using h

theorem sendXmlRpcPing_elapsed_amended_witness :
    sendXmlRpcPing c3att 2 = (c3att 2, 3) :=
  (sendXmlRpcPing_elapsed_amended c3att 2 2).1 (by decide) (by decide) (by decide)

/-- C10: for every attempt oracle and retry budget, the two delivery
loops invoke their codec at most `maxRetries + 1` times (and, being
total functions, always terminate with an outcome value — the
source's `try`/`catch` conversion of exceptions into outcomes is what
the oracle models). -/
theorem delivery_loops_invocation_bound (attX : Nat → XmlRpcPingResult)
    (attW : Nat → WebSubResult) (mX mW : Nat) :
    (sendXmlRpcPing attX mX).2 ≤ mX + 1 ∧ (notifyHub attW mW).2 ≤ mW + 1 := by
  constructor
  · exact pingLoopX_invocations_le attX mX mX 0 0 (Nat.zero_le _)
  · exact pingLoopW_invocations_le attW mW mW 0 0 (Nat.zero_le _)

/-! ### Claims C5, C6 and C7: WebSub rate limiting and retry
classification -/

def c5resp : HttpResponse := ⟨503, "Service Unavailable", some "120", ""⟩

def c5pd : String → Option Int := fun _ => none

def c5att : WebSubResult :=
  notifyHubAttempt (.response c5resp) 10000 "https://pubsubhubbub.appspot.com/" 7 0 c5pd

def c5oracle : Nat → WebSubResult := fun _ => c5att

/-- C5 counterexample: a WebSub attempt answered 503 yields a failure
outcome carrying the retry-after hint, but `isRetryableError`
classifies 503 as a retryable 5xx, so `notifyHub` with `maxRetries = 1`
invokes the codec twice — the attempt *is* automatically retried. -/
theorem websub_503_retried_counterexample :
    c5att.success = false
    ∧ c5att.statusCode = 503
    ∧ c5att.retryAfter = some 120
    ∧ isRetryableErrorW c5att = true
    ∧ (notifyHub c5oracle 1).2 = 2 := by
  refine ⟨by decide, by decide, by decide, by decide, by decide⟩

/-- C5 (amended): a 429 answer produces a failure outcome with the
retry-after hint and is not retried (the loop returns after one
attempt); a 503 answer also produces a failure outcome with the hint
but is classified retryable (it is a 5xx), so with retries remaining
the loop attempts again. -/
theorem websub_rate_limit_amended
    (stxt : String) (hdr : Option String) (body : String) (t : Nat) (hub : String)
    (rt : Nat) (now : Int) (pd : String → Option Int) (m : Nat)
    (att : Nat → WebSubResult) :
    ((notifyHubAttempt (.response ⟨429, stxt, hdr, body⟩) t hub rt now pd).success
        = false
      ∧ (notifyHubAttempt (.response ⟨429, stxt, hdr, body⟩) t hub rt now
          pd).retryAfter = some (retryAfterSeconds hdr now pd)
      ∧ isRetryableErrorW
          (notifyHubAttempt (.response ⟨429, stxt, hdr, body⟩) t hub rt now pd)
          = false
      ∧ (att 0 = notifyHubAttempt (.response ⟨429, stxt, hdr, body⟩) t hub rt now pd
          → notifyHub att m = (att 0, 1)))
    ∧ ((notifyHubAttempt (.response ⟨503, stxt, hdr, body⟩) t hub rt now pd).success
        = false
      ∧ (notifyHubAttempt (.response ⟨503, stxt, hdr, body⟩) t hub rt now
          pd).retryAfter = some (retryAfterSeconds hdr now pd)
      ∧ isRetryableErrorW
          (notifyHubAttempt (.response ⟨503, stxt, hdr, body⟩) t hub rt now pd)
          = true
      ∧ (1 ≤ m →
          att 0 = notifyHubAttempt (.response ⟨503, stxt, hdr, body⟩) t hub rt now pd
          → 2 ≤ (notifyHub att m).2)) := by
  have h429 : notifyHubAttempt (.response ⟨429, stxt, hdr, body⟩) t hub rt now pd
      = { success := false, statusCode := 429,
          message := "Rate limited. Retry after "
            ++ natStr (retryAfterSeconds hdr now pd) ++ "s",
          hubUrl := hub, responseTime := rt,
          retryAfter := some (retryAfterSeconds hdr now pd) } := rfl
  have h503 : notifyHubAttempt (.response ⟨503, stxt, hdr, body⟩) t hub rt now pd
      = { success := false, statusCode := 503,
          message := "Service unavailable. Retry after "
            ++ natStr (retryAfterSeconds hdr now pd) ++ "s",
          hubUrl := hub, responseTime := rt,
          retryAfter := some (retryAfterSeconds hdr now pd) } := rfl
  have hclean := rateLimited_msg_clean (retryAfterSeconds hdr now pd)
  have hnr429 : isRetryableErrorW
      (notifyHubAttempt (.response ⟨429, stxt, hdr, body⟩) t hub rt now pd)
      = false := by
    rw [h429, isRetryableErrorW]
    simp only []
    rw [hclean.1, hclean.2]
    rfl
  refine ⟨⟨by rw [h429], by rw [h429], hnr429, ?_⟩,
          ⟨by rw [h503], by rw [h503], ?_, ?_⟩⟩
  · intro hatt
    rw [notifyHub]
    exact pingLoopW_first_not_retryable att m m 0
      (by rw [hatt, h429]) (by rw [hatt]; exact hnr429)
  · exact isRetryableErrorW_5xx _ (show (500 : Nat) ≤ 503 by decide)
      (show (503 : Nat) < 600 by decide)
  · intro hm hatt
    rw [notifyHub]
    exact pingLoopW_first_retryable_retries att m 0 hm (by rw [hatt, h503])
      (by rw [hatt]
          exact isRetryableErrorW_5xx _ (show (500 : Nat) ≤ 503 by decide)
            (show (503 : Nat) < 600 by decide))

def c5resp429 : HttpResponse := ⟨429, "Too Many Requests", some "120", ""⟩

def c5att429 : WebSubResult :=
  notifyHubAttempt (.response c5resp429) 10000 "https://pubsubhubbub.appspot.com/" 7 0 c5pd

def c5oracle429 : Nat → WebSubResult := fun _ => c5att429

theorem websub_rate_limit_amended_witness :
    notifyHub c5oracle429 3 = (c5oracle429 0, 1) :=
  (websub_rate_limit_amended "Too Many Requests" (some "120") "" 10000
      "https://pubsubhubbub.appspot.com/" 7 0 c5pd 3 c5oracle429).1.2.2.2 rfl

/-- C7: for a 429/503 answer the outcome's retry-after hint is
computed by `retryAfterSeconds`: an all-digit header value is taken as
seconds; a non-digit value that parses as a date becomes the
non-negative ceiling of the second delta from now; a missing, empty or
unparseable value defaults to 60 seconds. -/
theorem websub_retry_after_parsing (resp : HttpResponse) (t : Nat) (hub : String)
    (rt : Nat) (now : Int) (pd : String → Option Int)
    (hst : resp.status = 429 ∨ resp.status = 503) :
    (notifyHubAttempt (.response resp) t hub rt now pd).retryAfter
      = some (retryAfterSeconds resp.retryAfterHeader now pd)
    ∧ (∀ h, resp.retryAfterHeader = some h → ¬ h = "" → isDigitStr h = true →
        retryAfterSeconds resp.retryAfterHeader now pd = digitsToNat h.data)
    ∧ (∀ h tdate, resp.retryAfterHeader = some h → ¬ h = "" →
        isDigitStr h = false → pd h = some tdate →
        retryAfterSeconds resp.retryAfterHeader now pd
          = (max 0 (ceilDivMs (tdate - now))).toNat)
    ∧ (resp.retryAfterHeader = none →
        retryAfterSeconds resp.retryAfterHeader now pd = 60)
    ∧ (∀ h, resp.retryAfterHeader = some h →
        (h = "" ∨ (isDigitStr h = false ∧ pd h = none)) →
        retryAfterSeconds resp.retryAfterHeader now pd = 60) := by
  refine ⟨?_, ?_, ?_, ?_, ?_⟩
  · rw [notifyHubAttempt, if_pos hst]
  · intro h hh hne hd
    rw [hh, retryAfterSeconds]
    rw [if_neg hne, if_pos hd]
  · intro h tdate hh hne hd hpd
    rw [hh, retryAfterSeconds]
    rw [if_neg hne, if_neg (by rw [hd]; exact Bool.noConfusion), hpd]
  · intro hh
    rw [hh, retryAfterSeconds]
  · intro h hh hcase
    rw [hh, retryAfterSeconds]
    rcases hcase with hemp | ⟨hd, hpd⟩
    · rw [if_pos hemp]
    · by_cases hemp : h = ""
      · rw [if_pos hemp]
      · rw [if_neg hemp, if_neg (by rw [hd]; exact Bool.noConfusion), hpd]

theorem websub_retry_after_parsing_witness :
    (notifyHubAttempt (.response c5resp) 10000 "https://pubsubhubbub.appspot.com/"
      7 0 c5pd).retryAfter = some 120 := by
  have H := websub_retry_after_parsing c5resp 10000
    "https://pubsubhubbub.appspot.com/" 7 0 c5pd (Or.inr rfl)
  rw [H.1, H.2.1 "120" rfl (by decide) (by decide)]
  decide

/-! C6: retry classification -/

def c6xml : String := "<fault><name>faultString</name><value>timed out</value></fault>"

def c6att : XmlRpcPingResult :=
  sendXmlRpcPingAttempt (.response ⟨200, "OK", none, c6xml⟩) 10000
    "http://rpc.pingomatic.com/RPC2" 5

def c6oracle : Nat → XmlRpcPingResult := fun _ => c6att

/-- C6 counterexample: an explicit `<fault>` response — terminal
according to the claim — whose fault text happens to contain
`"timed out"` is classified retryable, and the delivery unit performs
a second attempt instead of returning immediately. -/
theorem retry_classification_counterexample :
    c6att.flerror = true
    ∧ c6att.success = false
    ∧ c6att.message = "timed out"
    ∧ isRetryableErrorX c6att = true
    ∧ (sendXmlRpcPing c6oracle 1).2 = 2 := by
  refine ⟨by decide, by decide, by decide, by decide, by decide⟩

/-- C6 (amended): classification is by substring of the human message
(`'timed out'`, `'temporarily unavailable'` / `'Network error'`,
`'HTTP 5'`) plus, for WebSub, the 5xx status range.  Timeouts, thrown
network errors and 5xx answers are always retryable; a failure whose
message avoids the trigger substrings (and, for WebSub, whose status
is not 5xx) is terminal — the loop returns it after exactly one
attempt; but server-controlled text (fault strings, status text,
error bodies) containing a trigger substring is also retried. -/
theorem retry_classification_amended :
    (∀ t ep rt, isRetryableErrorX (sendXmlRpcPingAttempt .abortError t ep rt) = true)
    ∧ (∀ msg t ep rt,
        isRetryableErrorX (sendXmlRpcPingAttempt (.otherError msg) t ep rt) = true)
    ∧ (∀ resp t ep rt, 500 ≤ resp.status → resp.status < 600 →
        isRetryableErrorX (sendXmlRpcPingAttempt (.response resp) t ep rt) = true)
    ∧ (∀ r : XmlRpcPingResult, r.success = false →
        includesS r.message "timed out" = false →
        includesS r.message "temporarily unavailable" = false →
        includesS r.message "HTTP 5" = false →
        ∀ (att : Nat → XmlRpcPingResult) (m : Nat), att 0 = r →
          sendXmlRpcPing att m = (r, 1))
    ∧ (∀ t hub rt now pd,
        isRetryableErrorW (notifyHubAttempt .abortError t hub rt now pd) = true)
    ∧ (∀ msg t hub rt now pd,
        isRetryableErrorW (notifyHubAttempt (.otherError msg) t hub rt now pd)
          = true)
    ∧ (∀ w : WebSubResult, 500 ≤ w.statusCode → w.statusCode < 600 →
        isRetryableErrorW w = true)
    ∧ (∀ w : WebSubResult, w.success = false →
        includesS w.message "timed out" = false →
        includesS w.message "Network error" = false →
        w.statusCode < 500 →
        ∀ (att : Nat → WebSubResult) (m : Nat), att 0 = w →
          notifyHub att m = (w, 1)) := by
  refine ⟨isRetryableErrorX_abort, isRetryableErrorX_network,
    fun resp t ep rt h1 h2 => isRetryableErrorX_5xx resp t ep rt h1 h2,
    ?_, isRetryableErrorW_abort, isRetryableErrorW_network,
    fun w h1 h2 => isRetryableErrorW_5xx w h1 h2, ?_⟩
  · intro r hsucc h1 h2 h3 att m hatt
    have hret : isRetryableErrorX r = false := by
      rw [isRetryableErrorX, h1, h2, h3]
      rfl
    rw [sendXmlRpcPing]
    rw [show (r, 1) = (att 0, 1) from by rw [hatt]]
    exact pingLoopX_first_not_retryable att m m 0 (by rw [hatt]; exact hsucc)
      (by rw [hatt]; exact hret)
  · intro w hsucc h1 h2 hlt att m hatt
    have h5 : ¬ 500 ≤ w.statusCode := by omega
    have hret : isRetryableErrorW w = false := by
      rw [isRetryableErrorW, h1, h2]
      simp [h5]
    rw [notifyHub]
    rw [show (w, 1) = (att 0, 1) from by rw [hatt]]
    exact pingLoopW_first_not_retryable att m m 0 (by rw [hatt]; exact hsucc)
      (by rw [hatt]; exact hret)

def c6nrRes : XmlRpcPingResult := ⟨false, true, "HTTP 404: Not Found", "e", 5⟩

def c6nr : Nat → XmlRpcPingResult := fun _ => c6nrRes

theorem retry_classification_amended_witness :
    isRetryableErrorX (sendXmlRpcPingAttempt
      (.response ⟨503, "Service Unavailable", none, ""⟩) 10000 "e" 5) = true
    ∧ sendXmlRpcPing c6nr 1 = (c6nrRes, 1) :=
  ⟨retry_classification_amended.2.2.1 ⟨503, "Service Unavailable", none, ""⟩
      10000 "e" 5 (by decide) (by decide),
   retry_classification_amended.2.2.2.1 c6nrRes (by decide) (by decide)
      (by decide) (by decide) c6nr 1 rfl⟩

/-! ### Claim C9: the validation gate -/

/-- C9: a request whose `urls` array yields 0 URL strings (after the
string/trim/nonempty filter) or more than `MAX_URLS` of them is
rejected with HTTP 400 by the validation gate; the per-URL format and
SSRF checks (`urlValid`/`urlSafe`) are never consulted, and the
fan-out — the only place network calls happen — is reached only
through a `proceed` outcome. -/
theorem validation_rejects_bad_counts (urlValid : String → Bool)
    (urlSafe : String → Option String) (items : List UrlItem)
    (h : (filteredUrls items).length = 0 ∨ MAX_URLS < (filteredUrls items).length) :
    pingHandlerGate urlValid urlSafe (.withUrls items)
      = .reject 400
          (if (filteredUrls items).length = 0 then "No valid URLs provided"
           else "Maximum " ++ natStr MAX_URLS ++ " URLs allowed, received "
             ++ natStr (filteredUrls items).length) := by
  rw [pingHandlerGate, validateRequest]
  rcases h with h0 | h5
  · rw [if_pos h0]
    simp [h0]
  · have hne : ¬ (filteredUrls items).length = 0 := by
      intro hc
      rw [hc] at h5
      exact absurd h5 (by decide)
    rw [if_neg hne, if_pos h5]
    simp [hne]

def c9uv : String → Bool := fun _ => true

def c9us : String → Option String := fun _ => none

def c9items : List UrlItem :=
  [.str "http://a.example/", .str "http://b.example/", .str "http://c.example/",
   .str "http://d.example/", .str "http://e.example/", .str "http://f.example/"]

theorem validation_rejects_bad_counts_witness :
    pingHandlerGate c9uv c9us (.withUrls c9items)
      = .reject 400 "Maximum 5 URLs allowed, received 6" := by
  have H := validation_rejects_bad_counts c9uv c9us c9items (Or.inr (by decide))
  rw [H]
  decide

end Pinger